import Mathlib

set_option linter.unnecessarySeqFocus false

/-! Shallow embedding of the pystocks repository's valuation engine
(src/ValuationManager.py), MACD/RSI indicator engine (src/IndicatorManager.py)
and the legacy risk-metric computation (src/StockManager.py).

Numeric values (Python floats / SQL DECIMAL) are idealised as rationals;
Python None / SQL NULL is Option.none.  Python truthiness of a number
(falsy iff zero) is written out explicitly wherever the source relies on it. -/

/-- Cross label written to the macd table: GOLDEN / DEAD (the absent label is
Option.none). -/
inductive CrossLabel
  | GOLDEN
  | DEAD
deriving DecidableEq

/-- Valuation classification labels.  The source uses the Korean strings
"저평가" (undervalued), "고평가" (overvalued), "적정" (fair). -/
inductive ValLabel
  | UNDERVALUED
  | OVERVALUED
  | FAIR
deriving DecidableEq

/-- Configuration constants read from the environment in ValuationManager's
constructor; field names follow the source attributes. -/
structure ValuationConfig where
  REQUIRED_ROE : ℚ
  LOW_VALUATION_THRESHOLD : ℚ
  HIGH_VALUATION_THRESHOLD : ℚ
  CONSERVATIVE_FACTOR : ℚ
  W_RIM : ℚ
  W_PER : ℚ
  W_PEGR : ℚ
  PEGR_MIN_GROWTH : ℚ
  PEGR_MAX_GROWTH : ℚ
deriving DecidableEq

/-- The defaults hard-coded in the constructor of ValuationManager
(8.0, -10.0, 10.0, 0.8, 0.6, 0.2, 0.2, 5, 50). -/
def defaultConfig : ValuationConfig :=
  { REQUIRED_ROE := 8
  , LOW_VALUATION_THRESHOLD := -10
  , HIGH_VALUATION_THRESHOLD := 10
  , CONSERVATIVE_FACTOR := 8/10
  , W_RIM := 6/10
  , W_PER := 2/10
  , W_PEGR := 2/10
  , PEGR_MIN_GROWTH := 5
  , PEGR_MAX_GROWTH := 50 }

/-- The numeric fields of the per-security dict that _prepare_data produces
(code / name and the textual perf fields are identifiers and free text,
irrelevant to every claim, and omitted).  Each field may be NULL in the DB. -/
structure StockData where
  current_price : Option ℚ
  pbr : Option ℚ
  per : Option ℚ
  indust_per : Option ℚ
  eps : Option ℚ
  roe : Option ℚ
  bps : Option ℚ
  eps_pred : Option ℚ
  roe_pred : Option ℚ
  bps_pred : Option ℚ
deriving DecidableEq

/-- Result triple of _calculate_growth_rates. -/
structure GrowthRates where
  eps_growth_rate : ℚ
  bps_growth_rate : ℚ
  roe_growth_rate : ℚ
deriving DecidableEq

/-- _calculate_growth_rates.  Each guard is Python
`data.get(k) and data[k] > 0 and data.get(k_pred)`: the trailing value must be
present and truthy (nonzero) and positive, the forward value present and
truthy (nonzero); otherwise the rate stays 0. -/
def calculate_growth_rates (d : StockData) : GrowthRates :=
  let eps_growth_rate : ℚ :=
    match d.eps, d.eps_pred with
    | some e, some ep => if e ≠ 0 ∧ 0 < e ∧ ep ≠ 0 then (ep - e) / e * 100 else 0
    | _, _ => 0
  let bps_growth_rate : ℚ :=
    match d.bps, d.bps_pred with
    | some b, some bp => if b ≠ 0 ∧ 0 < b ∧ bp ≠ 0 then (bp - b) / b * 100 else 0
    | _, _ => 0
  let roe_growth_rate : ℚ :=
    match d.roe, d.roe_pred with
    | some r, some rp => if r ≠ 0 ∧ 0 < r ∧ rp ≠ 0 then (rp - r) / r * 100 else 0
    | _, _ => 0
  ⟨eps_growth_rate, bps_growth_rate, roe_growth_rate⟩

/-- _calculate_fair_value_rim: requires roe_pred and bps_pred non-NULL,
roe_pred >= 0 and bps_pred > 0; otherwise contributes 0. -/
def calculate_fair_value_rim (cfg : ValuationConfig) (d : StockData) : ℚ :=
  match d.roe_pred, d.bps_pred with
  | some roe_pred, some bps_pred =>
    if 0 ≤ roe_pred ∧ 0 < bps_pred then
      let excess_profit := (roe_pred / 100 - cfg.REQUIRED_ROE / 100) * bps_pred
      bps_pred + excess_profit / (cfg.REQUIRED_ROE / 100)
    else 0
  | _, _ => 0

/-- _calculate_fair_value_per: requires indust_per and eps_pred non-NULL and
both strictly positive; otherwise contributes 0. -/
def calculate_fair_value_per (d : StockData) : ℚ :=
  match d.indust_per, d.eps_pred with
  | some indust_per, some eps_pred =>
    if 0 < indust_per ∧ 0 < eps_pred then eps_pred * indust_per else 0
  | _, _ => 0

/-- _calculate_fair_value_pegr: requires eps_pred non-NULL and positive and the
EPS growth rate strictly between the configured bounds; otherwise 0.
(eps_growth_rate is always a number in the source, never None.) -/
def calculate_fair_value_pegr (cfg : ValuationConfig) (d : StockData)
    (eps_growth_rate : ℚ) : ℚ :=
  match d.eps_pred with
  | some eps_pred =>
    if 0 < eps_pred ∧ cfg.PEGR_MIN_GROWTH < eps_growth_rate ∧
        eps_growth_rate < cfg.PEGR_MAX_GROWTH then
      eps_growth_rate * eps_pred
    else 0
  | none => 0

/-- _blend_and_apply_margin: weighted sum over the sub-model values that are
strictly positive, divided by the sum of their weights, then multiplied by the
conservative factor; 0 when no sub-model contributed. -/
def blend_and_apply_margin (cfg : ValuationConfig) (fv_rim fv_per fv_pegr : ℚ) : ℚ :=
  let ws₁ : ℚ × ℚ := if 0 < fv_rim then (fv_rim * cfg.W_RIM, cfg.W_RIM) else (0, 0)
  let ws₂ : ℚ × ℚ :=
    if 0 < fv_per then (ws₁.1 + fv_per * cfg.W_PER, ws₁.2 + cfg.W_PER) else ws₁
  let ws₃ : ℚ × ℚ :=
    if 0 < fv_pegr then (ws₂.1 + fv_pegr * cfg.W_PEGR, ws₂.2 + cfg.W_PEGR) else ws₂
  if 0 < ws₃.2 then ws₃.1 / ws₃.2 * cfg.CONSERVATIVE_FACTOR else 0

/-- _classify_valuation: discrepancy ratio, PEG ratio (None unless
`per and per > 0 and eps_growth_rate and eps_growth_rate > PEGR_MIN_GROWTH`,
where `per` truthy means non-NULL and nonzero), and the threshold
classification with strict comparisons. -/
def classify_valuation (cfg : ValuationConfig) (current_price fair_value : ℚ)
    (per : Option ℚ) (eps_growth_rate : ℚ) : ValLabel × ℚ × Option ℚ :=
  let discrepancy_ratio := (current_price - fair_value) / fair_value * 100
  let peg_ratio : Option ℚ :=
    match per with
    | some p =>
      if p ≠ 0 ∧ 0 < p ∧ eps_growth_rate ≠ 0 ∧ cfg.PEGR_MIN_GROWTH < eps_growth_rate
      then some (p / eps_growth_rate) else none
    | none => none
  let label :=
    if discrepancy_ratio < cfg.LOW_VALUATION_THRESHOLD then ValLabel.UNDERVALUED
    else if cfg.HIGH_VALUATION_THRESHOLD < discrepancy_ratio then ValLabel.OVERVALUED
    else ValLabel.FAIR
  (label, discrepancy_ratio, peg_ratio)

/-- Round-half-to-even on rationals, the semantics of Python's built-in round. -/
def roundHalfEven (x : ℚ) : ℤ :=
  let f := ⌊x⌋
  if x - f < 1/2 then f
  else if 1/2 < x - f then f + 1
  else if f % 2 = 0 then f else f + 1

/-- Python round(x, 2) idealised over rationals. -/
def pyRound2 (x : ℚ) : ℚ := (roundHalfEven (x * 100) : ℚ) / 100

/-- The numeric fields of the result dict built by
_perform_valuation_calculation (code / name / pbr / per / roe / perf fields
are passed through unchanged and omitted here). -/
structure ValuationRow where
  current_price : ℚ
  fair_value : ℚ
  discrepancy_ratio : ℚ
  eps_growth_rate : ℚ
  bps_growth_rate : ℚ
  roe_growth_rate : ℚ
  peg_ratio : Option ℚ
  result : ValLabel
deriving DecidableEq

/-- _perform_valuation_calculation: growth rates, the three sub-models, the
blend; returns None when the blended fair value is <= 0 (before the current
price is ever touched); a NULL current_price raises a TypeError inside
_classify_valuation which the surrounding except-handler turns into None. -/
def perform_valuation_calculation (cfg : ValuationConfig) (d : StockData) :
    Option ValuationRow :=
  let rates := calculate_growth_rates d
  let fv_rim := calculate_fair_value_rim cfg d
  let fv_per := calculate_fair_value_per d
  let fv_pegr := calculate_fair_value_pegr cfg d rates.eps_growth_rate
  let fair_value := blend_and_apply_margin cfg fv_rim fv_per fv_pegr
  if fair_value ≤ 0 then none
  else
    match d.current_price with
    | none => none
    | some cp =>
      match classify_valuation cfg cp fair_value d.per rates.eps_growth_rate with
      | (result, discrepancy_ratio, peg_ratio) =>
        some { current_price := cp
             , fair_value := pyRound2 fair_value
             , discrepancy_ratio := pyRound2 discrepancy_ratio
             , eps_growth_rate := pyRound2 rates.eps_growth_rate
             , bps_growth_rate := pyRound2 rates.bps_growth_rate
             , roe_growth_rate := pyRound2 rates.roe_growth_rate
             , peg_ratio := peg_ratio.map pyRound2
             , result := result }

/-- The blended fair value _perform_valuation_calculation computes before the
<= 0 check (and before any rounding). -/
def blendedFairValue (cfg : ValuationConfig) (d : StockData) : ℚ :=
  blend_and_apply_margin cfg (calculate_fair_value_rim cfg d)
    (calculate_fair_value_per d)
    (calculate_fair_value_pegr cfg d (calculate_growth_rates d).eps_growth_rate)

/-- Per-record step of the batch path calculate_and_save_valuations: the
record is skipped unless code, roe_pred, bps_pred and current_price are all
non-NULL (code comes from the SQL join and is always present). -/
def calculate_and_save_valuations_step (cfg : ValuationConfig) (d : StockData) :
    Option ValuationRow :=
  if d.roe_pred.isSome ∧ d.bps_pred.isSome ∧ d.current_price.isSome then
    perform_valuation_calculation cfg d
  else none

/-- The single-security path calculate_valuation, after the two DB fetches are
merged into one record.  Its guard `any(d is None for d in tuple[1:4])` slices
positions 1..3 of the fetched financials tuple
(pbr, per, indust_per, eps, roe, bps, eps_pred, roe_pred, bps_pred, ...),
i.e. it requires per, indust_per and eps non-NULL — although the inline
comment in the source claims the checked fields are eps_pred, roe_pred,
bps_pred.  The latest close price must also be non-NULL. -/
def calculate_valuation (cfg : ValuationConfig) (d : StockData) :
    Option ValuationRow :=
  if d.per.isSome ∧ d.indust_per.isSome ∧ d.eps.isSome ∧ d.current_price.isSome then
    perform_valuation_calculation cfg d
  else none

/-- Modelled from the spec (step 3 wording, for the refinement claim C2):
the weighted average over exactly the strictly positive sub-model values, the
weight sum renormalized to the contributing weights, times the conservative
factor. -/
def specBlendedFairValue (cfg : ValuationConfig) (fv_rim fv_per fv_pegr : ℚ) : ℚ :=
  let contributing :=
    [(fv_rim, cfg.W_RIM), (fv_per, cfg.W_PER), (fv_pegr, cfg.W_PEGR)].filter
      (fun p => 0 < p.1)
  let weighted_sum := (contributing.map (fun p => p.1 * p.2)).sum
  let total_weight := (contributing.map (fun p => p.2)).sum
  if 0 < total_weight then weighted_sum / total_weight * cfg.CONSERVATIVE_FACTOR
  else 0

/-- One step of the MACD cross labelling in calculate_and_save_indicators:
compare histogram[t] against the shifted value histogram[t-1].  For the first
row the shifted value is NaN (modelled none), whose comparisons are all false,
so it yields no label. -/
def crossOf : Option ℚ → ℚ → Option CrossLabel
  | none, _ => none
  | some prev, cur =>
    if 0 ≤ cur ∧ prev < 0 then some CrossLabel.GOLDEN
    else if cur ≤ 0 ∧ 0 < prev then some CrossLabel.DEAD
    else none

/-- The `cross` column computed over a whole MACD-histogram series:
`macd_hist.shift(1)` pairs each entry with its predecessor (none at index 0). -/
def macdCrossLabels (hist : List ℚ) : List (Option CrossLabel) :=
  List.zipWith crossOf (none :: hist.map some) hist

/-- The gain input series of the RSI computation:
`delta = close.diff()` then `delta.where(delta > 0, 0)`.  The leading NaN of
diff compares false, so the first entry is 0. -/
def gainInputs : List ℚ → List ℚ
  | [] => []
  | c :: rest =>
    0 :: List.zipWith (fun cur prev => if 0 < cur - prev then cur - prev else 0)
      rest (c :: rest)

/-- The loss input series: `-delta.where(delta < 0, 0)` (nonnegative). -/
def lossInputs : List ℚ → List ℚ
  | [] => []
  | c :: rest =>
    0 :: List.zipWith (fun cur prev => if cur - prev < 0 then -(cur - prev) else 0)
      rest (c :: rest)

/-- `Series.ewm(adjust=False).mean()` continued after its seed: each output is
(1 - alpha) * previous output + alpha * input. -/
def ewmFrom (a y : ℚ) : List ℚ → List ℚ
  | [] => []
  | x :: xs => ((1 - a) * y + a * x) :: ewmFrom a ((1 - a) * y + a * x) xs

/-- `Series.ewm(alpha, adjust=False).mean()`: seeded with the first input. -/
def ewm (a : ℚ) : List ℚ → List ℚ
  | [] => []
  | x :: xs => x :: ewmFrom a x xs

/-- Wilder-smoothed gain series of the RSI computation (alpha = 1/14). -/
def smoothedGain (closes : List ℚ) : List ℚ := ewm (1/14) (gainInputs closes)

/-- Wilder-smoothed loss series of the RSI computation (alpha = 1/14). -/
def smoothedLoss (closes : List ℚ) : List ℚ := ewm (1/14) (lossInputs closes)

/-- One entry of `rsi = 100 - 100/(1 + gain/loss)` under IEEE float semantics:
loss = 0 with a positive gain gives rs = +infinity hence rsi = 100; loss = 0
with gain = 0 gives rs = NaN hence rsi = NaN (modelled none); otherwise the
finite formula.  No branch raises. -/
def rsiPoint (g l : ℚ) : Option ℚ :=
  if l = 0 then (if g = 0 then none else some 100)
  else some (100 - 100 / (1 + g / l))

/-- The full 14-period RSI series of calculate_and_save_indicators. -/
def rsiSeries (closes : List ℚ) : List (Option ℚ) :=
  List.zipWith rsiPoint (smoothedGain closes) (smoothedLoss closes)

/-- Day-over-day percentage returns of update_risk_metrics:
`close.pct_change() * 100`, one entry per consecutive pair (the leading NaN of
pct_change is dropped; pandas min skips it anyway). -/
def dailyReturns : List ℚ → List ℚ
  | [] => []
  | c :: rest =>
    List.zipWith (fun cur prev => (cur - prev) / prev * 100) rest (c :: rest)

/-- The max 1-day fall rate update_risk_metrics writes for one security:
none when fewer than 2 close prices exist (the security is skipped); otherwise
the minimum daily return, reported as exactly 0 when that minimum is undefined
(all-NaN) or >= 0. -/
def maxDailyFallRate (closes : List ℚ) : Option ℚ :=
  if closes.length < 2 then none
  else
    match (dailyReturns closes).min? with
    | none => some 0
    | some m => some (if 0 ≤ m then 0 else m)

/-- The end-to-end example record of the spec: eps 100, eps_pred 120,
bps_pred 10000, roe_pred 10, indust_per 15, per 8, current price 10500. -/
def exampleRecord : StockData :=
  { current_price := some 10500, pbr := none, per := some 8, indust_per := some 15
  , eps := some 100, roe := none, bps := none, eps_pred := some 120
  , roe_pred := some 10, bps_pred := some 10000 }

/-- A record with NULL roe_pred and bps_pred that still passes the
single-security path's guard (per, indust_per, eps present). -/
def missingPredRecord : StockData :=
  { current_price := some 1000, pbr := none, per := some 8, indust_per := some 15
  , eps := some 100, roe := none, bps := none, eps_pred := some 200
  , roe_pred := none, bps_pred := none }

/-- A record whose trailing EPS is positive but whose forward EPS is exactly 0
(present, yet falsy in Python). -/
def zeroForwardRecord : StockData :=
  { current_price := none, pbr := none, per := none, indust_per := none
  , eps := some 100, roe := none, bps := none, eps_pred := some 0
  , roe_pred := none, bps_pred := none }

/-- A record whose only contributing sub-model produces the tiny fair value
1/1000, so the blended value 1/1250 rounds to 0.00 at two decimals. -/
def tinyFairValueRecord : StockData :=
  { current_price := some 1, pbr := none, per := none, indust_per := some 1
  , eps := none, roe := none, bps := none, eps_pred := some (1/1000)
  , roe_pred := none, bps_pred := none }

/-- A record with every field NULL. -/
def emptyRecord : StockData :=
  { current_price := none, pbr := none, per := none, indust_per := none
  , eps := none, roe := none, bps := none, eps_pred := none
  , roe_pred := none, bps_pred := none }

/-- Evaluation of the full pipeline on the spec's end-to-end example. -/
theorem exampleRecord_eval :
    perform_valuation_calculation defaultConfig exampleRecord =
      some { current_price := 10500, fair_value := 6672
           , discrepancy_ratio := 5737/100, eps_growth_rate := 20
           , bps_growth_rate := 0, roe_growth_rate := 0
           , peg_ratio := some (2/5), result := ValLabel.OVERVALUED } := by
  simp only [perform_valuation_calculation, calculate_growth_rates,
    calculate_fair_value_rim, calculate_fair_value_per, calculate_fair_value_pegr,
    blend_and_apply_margin, classify_valuation, exampleRecord, defaultConfig,
    Option.map]
  norm_num [pyRound2, roundHalfEven]

/-- Claim C1: under the default configuration the example record yields
RIM 12500, industry-PER 1800, PEGR 2400, blend 8340 before the 0.8 haircut,
fair value 6672, a discrepancy ratio of approximately 57.4 percent (the stored
two-decimal value is 57.37), and classification OVERVALUED. -/
theorem C1_end_to_end_example :
    calculate_fair_value_rim defaultConfig exampleRecord = 12500
    ∧ calculate_fair_value_per exampleRecord = 1800
    ∧ calculate_fair_value_pegr defaultConfig exampleRecord
        (calculate_growth_rates exampleRecord).eps_growth_rate = 2400
    ∧ blend_and_apply_margin defaultConfig 12500 1800 2400 = 8340 * (8/10)
    ∧ blend_and_apply_margin defaultConfig 12500 1800 2400 = 6672
    ∧ perform_valuation_calculation defaultConfig exampleRecord =
        some { current_price := 10500, fair_value := 6672
             , discrepancy_ratio := 5737/100, eps_growth_rate := 20
             , bps_growth_rate := 0, roe_growth_rate := 0
             , peg_ratio := some (2/5), result := ValLabel.OVERVALUED }
    ∧ |(5737 : ℚ)/100 - 574/10| < 1/10 := by
  refine ⟨?_, ?_, ?_, ?_, ?_, exampleRecord_eval, by rw [abs_lt]; norm_num⟩
  · norm_num [calculate_fair_value_rim, exampleRecord, defaultConfig]
  · norm_num [calculate_fair_value_per, exampleRecord]
  · norm_num [calculate_fair_value_pegr, calculate_growth_rates, exampleRecord,
      defaultConfig]
  · norm_num [blend_and_apply_margin, defaultConfig]
  · norm_num [blend_and_apply_margin, defaultConfig]

/-- Claim C4 (code bug): on the single-security path, a record with NULL
roe_pred and NULL bps_pred is not rejected — the guard checks per, indust_per
and eps (tuple positions 1..3) although the source's own inline comment says
it checks eps_pred, roe_pred, bps_pred — and an estimate (fair value 2400,
UNDERVALUED) is produced; the batch path rejects the same record. -/
theorem C4_single_path_misses_null_check :
    missingPredRecord.roe_pred = none
    ∧ missingPredRecord.bps_pred = none
    ∧ calculate_and_save_valuations_step defaultConfig missingPredRecord = none
    ∧ (calculate_valuation defaultConfig missingPredRecord).map
        (fun r => (r.fair_value, r.result)) = some (2400, ValLabel.UNDERVALUED) := by
  refine ⟨rfl, rfl, by simp [calculate_and_save_valuations_step, missingPredRecord], ?_⟩
  simp only [calculate_valuation, perform_valuation_calculation,
    calculate_growth_rates, calculate_fair_value_rim, calculate_fair_value_per,
    calculate_fair_value_pegr, blend_and_apply_margin, classify_valuation,
    missingPredRecord, defaultConfig, Option.map]
  norm_num [pyRound2, roundHalfEven]

/-- Claim C3: a NULL roe_pred excludes the RIM sub-model (it contributes 0 and
nothing raises: the embedding is total), and whenever none of the three
sub-models produces a strictly positive value the computation returns no
result at all. -/
theorem C3_not_evaluable_returns_none :
    (∀ (cfg : ValuationConfig) (d : StockData), d.roe_pred = none →
      calculate_fair_value_rim cfg d = 0)
    ∧ (∀ (cfg : ValuationConfig) (d : StockData),
        calculate_fair_value_rim cfg d ≤ 0 →
        calculate_fair_value_per d ≤ 0 →
        calculate_fair_value_pegr cfg d
          (calculate_growth_rates d).eps_growth_rate ≤ 0 →
        perform_valuation_calculation cfg d = none) := by
  constructor
  · intro cfg d h
    simp [calculate_fair_value_rim, h]
  · intro cfg d h1 h2 h3
    have hb : blend_and_apply_margin cfg (calculate_fair_value_rim cfg d)
        (calculate_fair_value_per d)
        (calculate_fair_value_pegr cfg d
          (calculate_growth_rates d).eps_growth_rate) = 0 := by
      simp [blend_and_apply_margin, not_lt.mpr h1, not_lt.mpr h2, not_lt.mpr h3]
    simp [perform_valuation_calculation, hb]

/-- Witness for C3 at the all-NULL record: the RIM sub-model is excluded and
the engine yields no result. -/
theorem C3_witness :
    calculate_fair_value_rim defaultConfig emptyRecord = 0
    ∧ perform_valuation_calculation defaultConfig emptyRecord = none :=
  ⟨C3_not_evaluable_returns_none.1 defaultConfig emptyRecord rfl,
   C3_not_evaluable_returns_none.2 defaultConfig emptyRecord
     (le_of_eq (C3_not_evaluable_returns_none.1 defaultConfig emptyRecord rfl))
     (le_of_eq rfl) (le_of_eq rfl)⟩

/-- Counterexample to claim C6: the trailing EPS is present and strictly
positive and the forward EPS is present, yet the computed growth rate is 0,
not (forward - trailing)/trailing * 100 = -100, because the source tests the
forward value for Python truthiness and 0.0 is falsy. -/
theorem C6_counterexample :
    zeroForwardRecord.eps = some 100
    ∧ (0 : ℚ) < 100
    ∧ zeroForwardRecord.eps_pred = some 0
    ∧ (calculate_growth_rates zeroForwardRecord).eps_growth_rate = 0
    ∧ (calculate_growth_rates zeroForwardRecord).eps_growth_rate ≠
        ((0 : ℚ) - 100) / 100 * 100 := by
  refine ⟨rfl, by norm_num, rfl, ?_, ?_⟩ <;>
    norm_num [calculate_growth_rates, zeroForwardRecord]

/-- Claim C6 as amended: for each metric pair the growth rate is
(forward - trailing)/trailing * 100 when the trailing value is present and
strictly positive and the forward value is present AND NONZERO; in every other
case (trailing absent, trailing <= 0, forward absent, or forward = 0) it is
exactly 0. -/
theorem C6_growth_rates_amended :
    ∀ d : StockData,
      (calculate_growth_rates d).eps_growth_rate =
        (match d.eps, d.eps_pred with
         | some t, some f => if 0 < t ∧ f ≠ 0 then (f - t) / t * 100 else 0
         | _, _ => 0)
      ∧ (calculate_growth_rates d).bps_growth_rate =
        (match d.bps, d.bps_pred with
         | some t, some f => if 0 < t ∧ f ≠ 0 then (f - t) / t * 100 else 0
         | _, _ => 0)
      ∧ (calculate_growth_rates d).roe_growth_rate =
        (match d.roe, d.roe_pred with
         | some t, some f => if 0 < t ∧ f ≠ 0 then (f - t) / t * 100 else 0
         | _, _ => 0) := by
  intro d
  refine ⟨?_, ?_, ?_⟩
  · rcases he : d.eps with _ | t <;> rcases hp : d.eps_pred with _ | f <;>
      simp only [calculate_growth_rates, he, hp]
    by_cases ht : 0 < t ∧ f ≠ 0
    · rw [if_pos ht, if_pos ⟨ne_of_gt ht.1, ht⟩]
    · rw [if_neg ht, if_neg (fun h => ht ⟨h.2.1, h.2.2⟩)]
  · rcases he : d.bps with _ | t <;> rcases hp : d.bps_pred with _ | f <;>
      simp only [calculate_growth_rates, he, hp]
    by_cases ht : 0 < t ∧ f ≠ 0
    · rw [if_pos ht, if_pos ⟨ne_of_gt ht.1, ht⟩]
    · rw [if_neg ht, if_neg (fun h => ht ⟨h.2.1, h.2.2⟩)]
  · rcases he : d.roe with _ | t <;> rcases hp : d.roe_pred with _ | f <;>
      simp only [calculate_growth_rates, he, hp]
    by_cases ht : 0 < t ∧ f ≠ 0
    · rw [if_pos ht, if_pos ⟨ne_of_gt ht.1, ht⟩]
    · rw [if_neg ht, if_neg (fun h => ht ⟨h.2.1, h.2.2⟩)]

/-- roundHalfEven never drops below the floor, so it maps nonnegatives to
nonnegatives. -/
theorem roundHalfEven_nonneg (x : ℚ) (hx : 0 ≤ x) : 0 ≤ roundHalfEven x := by
  have hf : (0 : ℤ) ≤ ⌊x⌋ := Int.floor_nonneg.mpr hx
  simp only [roundHalfEven]
  split_ifs <;> omega

/-- Python round(x, 2) maps nonnegatives to nonnegatives. -/
theorem pyRound2_nonneg (x : ℚ) (hx : 0 ≤ x) : 0 ≤ pyRound2 x := by
  unfold pyRound2
  have h := roundHalfEven_nonneg (x * 100) (by positivity)
  have h2 : (0 : ℚ) ≤ (roundHalfEven (x * 100) : ℚ) := by exact_mod_cast h
  positivity

/-- Counterexample to claim C10: a record whose blended fair value is the
positive rational 1/1250 = 0.0008 passes the > 0 check, but the returned
record stores round(0.0008, 2) = 0.00: a result is returned whose fair_value
is not strictly positive. -/
theorem C10_counterexample :
    blendedFairValue defaultConfig tinyFairValueRecord = 1/1250
    ∧ (perform_valuation_calculation defaultConfig tinyFairValueRecord).map
        (fun r => r.fair_value) = some 0 := by
  constructor
  · norm_num [blendedFairValue, blend_and_apply_margin, calculate_fair_value_rim,
      calculate_fair_value_per, calculate_fair_value_pegr, calculate_growth_rates,
      tinyFairValueRecord, defaultConfig]
  · simp only [perform_valuation_calculation, calculate_growth_rates,
      calculate_fair_value_rim, calculate_fair_value_per, calculate_fair_value_pegr,
      blend_and_apply_margin, classify_valuation, tinyFairValueRecord,
      defaultConfig, Option.map]
    norm_num [pyRound2, roundHalfEven]

/-- Claim C10 as amended: whenever _perform_valuation_calculation returns a
result, the blended (pre-rounding) fair value is strictly positive — so the
discrepancy-ratio division in _classify_valuation, whose denominator is that
pre-rounding value, can never see a zero denominator — and the stored
fair_value equals that value rounded to two decimals, hence is nonnegative
(but can round down to exactly 0). -/
theorem C10_fair_value_positive :
    ∀ (cfg : ValuationConfig) (d : StockData) (row : ValuationRow),
      perform_valuation_calculation cfg d = some row →
      0 < blendedFairValue cfg d
      ∧ row.fair_value = pyRound2 (blendedFairValue cfg d)
      ∧ 0 ≤ row.fair_value
      ∧ row.discrepancy_ratio =
          pyRound2 ((row.current_price - blendedFairValue cfg d) /
            blendedFairValue cfg d * 100) := by
  intro cfg d row h
  simp only [perform_valuation_calculation] at h
  by_cases hfv : blend_and_apply_margin cfg (calculate_fair_value_rim cfg d)
      (calculate_fair_value_per d)
      (calculate_fair_value_pegr cfg d (calculate_growth_rates d).eps_growth_rate) ≤ 0
  · rw [if_pos hfv] at h
    exact absurd h (by simp)
  · rw [if_neg hfv] at h
    push_neg at hfv
    rcases hcp : d.current_price with _ | cp
    · rw [hcp] at h
      exact absurd h (by simp)
    · rw [hcp] at h
      simp only [classify_valuation] at h
      have hrow := (Option.some.injEq _ _).mp h
      have h1 : 0 < blendedFairValue cfg d := hfv
      refine ⟨h1, ?_, ?_, ?_⟩
      · rw [← hrow]
        rfl
      · rw [← hrow]
        exact pyRound2_nonneg (blendedFairValue cfg d) (le_of_lt h1)
      · rw [← hrow]
        rfl

/-- Witness for C10 at the end-to-end example record: the pre-rounding
blended fair value is strictly positive. -/
theorem C10_witness : 0 < blendedFairValue defaultConfig exampleRecord :=
  (C10_fair_value_positive defaultConfig exampleRecord _ exampleRecord_eval).1

/-- Claim C2: the blend is the weighted average over exactly the strictly
positive sub-model values with the weight sum renormalized to the
contributing weights, times the conservative factor; when only the
industry-multiple model contributes (and its weight is positive, as in every
default-style configuration), the pre-haircut blend is exactly fv_per, so the
result is fv_per times the conservative factor. -/
theorem C2_blend_renormalization :
    ∀ (cfg : ValuationConfig) (fv_rim fv_per fv_pegr : ℚ),
      blend_and_apply_margin cfg fv_rim fv_per fv_pegr =
        specBlendedFairValue cfg fv_rim fv_per fv_pegr
      ∧ (0 < cfg.W_PER → 0 < fv_per → fv_rim ≤ 0 → fv_pegr ≤ 0 →
          blend_and_apply_margin cfg fv_rim fv_per fv_pegr =
            fv_per * cfg.CONSERVATIVE_FACTOR) := by
  intro cfg a b c
  constructor
  · simp only [blend_and_apply_margin, specBlendedFairValue, List.filter]
    by_cases h1 : 0 < a <;> by_cases h2 : 0 < b <;> by_cases h3 : 0 < c <;>
      simp [h1, h2, h3] <;> ring_nf
  · intro hw hb ha hc
    simp only [blend_and_apply_margin, not_lt.mpr ha, not_lt.mpr hc, hb,
      if_true, if_false, if_pos, if_neg]
    rw [if_pos (by simpa using hw)]
    rw [zero_add, zero_add, mul_div_assoc, div_self (ne_of_gt hw), mul_one]

/-- Witness for C2: only the industry-multiple model contributes the value 5
under the default configuration. -/
theorem C2_witness :
    blend_and_apply_margin defaultConfig 0 5 0 =
      specBlendedFairValue defaultConfig 0 5 0
    ∧ blend_and_apply_margin defaultConfig 0 5 0 =
        5 * defaultConfig.CONSERVATIVE_FACTOR :=
  ⟨(C2_blend_renormalization defaultConfig 0 5 0).1,
   (C2_blend_renormalization defaultConfig 0 5 0).2 (by norm_num [defaultConfig])
     (by norm_num) le_rfl le_rfl⟩

/-- Claim C5: under the default thresholds -10 / +10, classification is by
strict comparison on the discrepancy ratio: UNDERVALUED iff it is < -10,
OVERVALUED iff it is > 10, FAIR otherwise; in particular a discrepancy of
exactly -10 classifies as FAIR. -/
theorem C5_classification_boundaries :
    ∀ (current_price fair_value eps_growth_rate : ℚ) (per : Option ℚ),
      0 < fair_value →
      (((classify_valuation defaultConfig current_price fair_value per
          eps_growth_rate).1 = ValLabel.UNDERVALUED ↔
        (current_price - fair_value) / fair_value * 100 < -10)
      ∧ ((classify_valuation defaultConfig current_price fair_value per
          eps_growth_rate).1 = ValLabel.OVERVALUED ↔
        10 < (current_price - fair_value) / fair_value * 100)
      ∧ ((classify_valuation defaultConfig current_price fair_value per
          eps_growth_rate).1 = ValLabel.FAIR ↔
        (-10 ≤ (current_price - fair_value) / fair_value * 100 ∧
          (current_price - fair_value) / fair_value * 100 ≤ 10))
      ∧ ((current_price - fair_value) / fair_value * 100 = -10 →
        (classify_valuation defaultConfig current_price fair_value per
          eps_growth_rate).1 = ValLabel.FAIR)) := by
  intro cp fv g per _
  simp only [classify_valuation, defaultConfig]
  set dr := (cp - fv) / fv * 100 with hdr
  by_cases h1 : dr < -10
  · rw [if_pos h1]
    refine ⟨iff_of_true rfl h1, iff_of_false (by simp) (by intro h; linarith),
      iff_of_false (by simp) (fun h => by linarith [h.1]), fun h => ?_⟩
    exact absurd (h ▸ h1) (lt_irrefl (-10 : ℚ))
  · rw [if_neg h1]
    push_neg at h1
    by_cases h2 : 10 < dr
    · rw [if_pos h2]
      refine ⟨iff_of_false (by simp) (by intro h; linarith),
        iff_of_true rfl h2,
        iff_of_false (by simp) (fun h => by linarith [h.2]), fun h => ?_⟩
      rw [h] at h2
      linarith
    · rw [if_neg h2]
      push_neg at h2
      exact ⟨iff_of_false (by simp) (by intro h; linarith),
        iff_of_false (by simp) (by intro h; linarith),
        iff_of_true rfl ⟨h1, h2⟩, fun _ => rfl⟩

/-- Witness for C5 at the boundary: current price 90 against fair value 100
gives discrepancy exactly -10, classified FAIR. -/
theorem C5_witness :
    (classify_valuation defaultConfig 90 100 none 0).1 = ValLabel.FAIR :=
  (C5_classification_boundaries 90 100 0 none (by norm_num)).2.2.2 (by norm_num)

/-- Claim C7: the MACD cross label at index t >= 1 is GOLDEN iff
histogram[t] >= 0 and histogram[t-1] < 0, DEAD iff histogram[t] <= 0 and
histogram[t-1] > 0, and no label otherwise; the first element never carries a
label; the spec's example sequence [-1, -0.5, 0.2, 0.1] yields GOLDEN at
index 2 and no label elsewhere. -/
theorem C7_macd_cross_labels :
    (∀ (hist : List ℚ) (t : ℕ) (c p : ℚ), 1 ≤ t →
      hist.get? t = some c → hist.get? (t - 1) = some p →
      (((macdCrossLabels hist).get? t = some (some CrossLabel.GOLDEN)) ↔
        (0 ≤ c ∧ p < 0))
      ∧ (((macdCrossLabels hist).get? t = some (some CrossLabel.DEAD)) ↔
        (c ≤ 0 ∧ 0 < p))
      ∧ (((macdCrossLabels hist).get? t = some none) ↔
        (¬(0 ≤ c ∧ p < 0) ∧ ¬(c ≤ 0 ∧ 0 < p))))
    ∧ (∀ (h₀ : ℚ) (hist : List ℚ),
        (macdCrossLabels (h₀ :: hist)).get? 0 = some none)
    ∧ macdCrossLabels [-1, -1/2, 1/5, 1/10] =
        [none, none, some CrossLabel.GOLDEN, none] := by
  refine ⟨?_, ?_, ?_⟩
  · intro hist t c p ht hc hp
    match t, ht with
    | Nat.succ s, _ =>
      have hps : hist.get? s = some p := by simpa using hp
      have hprev : (none :: hist.map some).get? (s + 1) = some (some p) := by
        simpa [List.get?_eq_getElem?, List.getElem?_map] using congrArg (Option.map some) hps
      have hlab : (macdCrossLabels hist).get? (s + 1) =
          some (crossOf (some p) c) := by
        unfold macdCrossLabels
        exact (List.get?_zipWith_eq_some crossOf _ _ _ _).mpr ⟨some p, c, hprev, hc, rfl⟩
      rw [hlab]
      simp only [Option.some.injEq, crossOf]
      by_cases hg : 0 ≤ c ∧ p < 0
      · rw [if_pos hg]
        exact ⟨iff_of_true rfl hg,
          iff_of_false (by simp) (fun h => by linarith [hg.2, h.2]),
          iff_of_false (by simp) (fun h => h.1 hg)⟩
      · by_cases hd : c ≤ 0 ∧ 0 < p
        · rw [if_neg hg, if_pos hd]
          exact ⟨iff_of_false (by simp) hg, iff_of_true rfl hd,
            iff_of_false (by simp) (fun h => h.2 hd)⟩
        · rw [if_neg hg, if_neg hd]
          exact ⟨iff_of_false (by simp) hg, iff_of_false (by simp) hd,
            iff_of_true rfl ⟨hg, hd⟩⟩
  · intro h₀ hist
    rfl
  · norm_num [macdCrossLabels, crossOf]

/-- Witness for C7 at the example sequence, index 2: the label is GOLDEN
exactly because 0.2 >= 0 and -0.5 < 0. -/
theorem C7_witness :
    (macdCrossLabels [-1, -1/2, 1/5, 1/10]).get? 2 =
      some (some CrossLabel.GOLDEN) ↔ (0 ≤ (1/5 : ℚ) ∧ (-1/2 : ℚ) < 0) :=
  (C7_macd_cross_labels.1 [-1, -1/2, 1/5, 1/10] 2 (1/5) (-1/2)
    (by norm_num) rfl rfl).1

/-- Pointwise-nonnegative binary maps give nonnegative zipWith outputs. -/
theorem zipWith_nonneg (f : ℚ → ℚ → ℚ) (hf : ∀ u v, 0 ≤ f u v) :
    ∀ (l₁ l₂ : List ℚ), ∀ x ∈ List.zipWith f l₁ l₂, 0 ≤ x := by
  intro l₁
  induction l₁ with
  | nil => simp
  | cons a l ih =>
    intro l₂ x hx
    cases l₂ with
    | nil => simp at hx
    | cons b l₂ =>
      rcases (by simpa using hx : x = f a b ∨ x ∈ List.zipWith f l l₂) with h | h
      · exact h ▸ hf a b
      · exact ih l₂ x h

/-- Every entry of the RSI gain input series is nonnegative. -/
theorem gainInputs_nonneg (closes : List ℚ) : ∀ x ∈ gainInputs closes, 0 ≤ x := by
  cases closes with
  | nil => simp [gainInputs]
  | cons c rest =>
    intro x hx
    rcases (by simpa [gainInputs] using hx :
        x = 0 ∨ x ∈ List.zipWith
          (fun cur prev => if 0 < cur - prev then cur - prev else 0)
          rest (c :: rest)) with h | h
    · exact le_of_eq h.symm
    · refine zipWith_nonneg _ (fun u v => ?_) rest (c :: rest) x h
      dsimp only
      split_ifs with hd
      · exact le_of_lt hd
      · exact le_refl 0

/-- Every entry of the RSI loss input series is nonnegative. -/
theorem lossInputs_nonneg (closes : List ℚ) : ∀ x ∈ lossInputs closes, 0 ≤ x := by
  cases closes with
  | nil => simp [lossInputs]
  | cons c rest =>
    intro x hx
    rcases (by simpa [lossInputs] using hx :
        x = 0 ∨ x ∈ List.zipWith
          (fun cur prev => if cur - prev < 0 then -(cur - prev) else 0)
          rest (c :: rest)) with h | h
    · exact le_of_eq h.symm
    · refine zipWith_nonneg _ (fun u v => ?_) rest (c :: rest) x h
      dsimp only
      split_ifs with hd
      · linarith
      · exact le_refl 0

/-- Invariant of ewmFrom over nonnegative inputs: every output is
nonnegative, outputs stay positive once the accumulator is positive, and the
output at index t is positive as soon as some input among the first t+1 is. -/
theorem ewmFrom_invariant (a : ℚ) (ha0 : 0 < a) (ha1 : a < 1) :
    ∀ (xs : List ℚ) (y : ℚ) (t : ℕ) (z : ℚ), 0 ≤ y → (∀ x ∈ xs, 0 ≤ x) →
      (ewmFrom a y xs).get? t = some z →
      0 ≤ z ∧ (0 < y → 0 < z) ∧ ((∃ x ∈ xs.take (t + 1), 0 < x) → 0 < z) := by
  intro xs
  induction xs with
  | nil =>
    intro y t z _ _ h
    simp [ewmFrom] at h
  | cons x xs ih =>
    intro y t z hy hxs h
    have hx : 0 ≤ x := hxs x (List.mem_cons_self x xs)
    have hy' : 0 ≤ (1 - a) * y + a * x :=
      add_nonneg (mul_nonneg (by linarith) hy) (mul_nonneg (le_of_lt ha0) hx)
    have hypos : 0 < y → 0 < (1 - a) * y + a * x := fun h0 =>
      add_pos_of_pos_of_nonneg (mul_pos (by linarith) h0)
        (mul_nonneg (le_of_lt ha0) hx)
    have hxpos : 0 < x → 0 < (1 - a) * y + a * x := fun h0 =>
      add_pos_of_nonneg_of_pos (mul_nonneg (by linarith) hy) (mul_pos ha0 h0)
    match t with
    | 0 =>
      have hz : z = (1 - a) * y + a * x := by simpa [ewmFrom] using h.symm
      refine ⟨hz ▸ hy', fun h0 => hz ▸ hypos h0, ?_⟩
      rintro ⟨w, hw, hwpos⟩
      have hwx : w = x := by simpa using hw
      exact hz ▸ hxpos (hwx ▸ hwpos)
    | Nat.succ s =>
      have h' : (ewmFrom a ((1 - a) * y + a * x) xs).get? s = some z := by
        simpa [ewmFrom] using h
      have IH := ih ((1 - a) * y + a * x) s z hy'
        (fun u hu => hxs u (List.mem_cons_of_mem x hu)) h'
      refine ⟨IH.1, fun h0 => IH.2.1 (hypos h0), ?_⟩
      rintro ⟨w, hw, hwpos⟩
      rcases (by simpa using hw : w = x ∨ w ∈ xs.take (s + 1)) with rfl | hmem
      · exact IH.2.1 (hxpos hwpos)
      · exact IH.2.2 ⟨w, hmem, hwpos⟩

/-- Invariant of ewm over nonnegative inputs: outputs are nonnegative, and
positive as soon as some input among the first t+1 is positive. -/
theorem ewm_invariant (a : ℚ) (ha0 : 0 < a) (ha1 : a < 1) (xs : List ℚ)
    (hxs : ∀ x ∈ xs, 0 ≤ x) (t : ℕ) (z : ℚ)
    (h : (ewm a xs).get? t = some z) :
    0 ≤ z ∧ ((∃ x ∈ xs.take (t + 1), 0 < x) → 0 < z) := by
  cases xs with
  | nil => simp [ewm] at h
  | cons x xs =>
    have hx : 0 ≤ x := hxs x (List.mem_cons_self x xs)
    match t with
    | 0 =>
      have hz : z = x := by simpa [ewm] using h.symm
      refine ⟨hz ▸ hx, ?_⟩
      rintro ⟨w, hw, hwpos⟩
      have hwx : w = x := by simpa using hw
      exact hz ▸ (hwx ▸ hwpos)
    | Nat.succ s =>
      have h' : (ewmFrom a x xs).get? s = some z := by simpa [ewm] using h
      have IH := ewmFrom_invariant a ha0 ha1 xs x s z hx
        (fun u hu => hxs u (List.mem_cons_of_mem x hu)) h'
      refine ⟨IH.1, ?_⟩
      rintro ⟨w, hw, hwpos⟩
      rcases (by simpa using hw : w = x ∨ w ∈ xs.take (s + 1)) with rfl | hmem
      · exact IH.2.1 hwpos
      · exact IH.2.2 ⟨w, hmem, hwpos⟩

/-- ewmFrom preserves length. -/
theorem ewmFrom_length (a : ℚ) :
    ∀ (xs : List ℚ) (y : ℚ), (ewmFrom a y xs).length = xs.length := by
  intro xs
  induction xs with
  | nil => intro y; rfl
  | cons x xs ih => intro y; simp [ewmFrom, ih]

/-- ewm preserves length. -/
theorem ewm_length (a : ℚ) (xs : List ℚ) : (ewm a xs).length = xs.length := by
  cases xs with
  | nil => rfl
  | cons x xs => simp [ewm, ewmFrom_length]

/-- The gain input series has one entry per close price. -/
theorem gainInputs_length (closes : List ℚ) :
    (gainInputs closes).length = closes.length := by
  cases closes with
  | nil => rfl
  | cons c rest =>
    simp [gainInputs, List.length_zipWith]

/-- The loss input series has one entry per close price. -/
theorem lossInputs_length (closes : List ℚ) :
    (lossInputs closes).length = closes.length := by
  cases closes with
  | nil => rfl
  | cons c rest =>
    simp [lossInputs, List.length_zipWith]

/-- A defined RSI entry computed from nonnegative smoothed gain and loss lies
in [0, 100]. -/
theorem rsiPoint_bounds (g l r : ℚ) (hg : 0 ≤ g) (hl : 0 ≤ l)
    (h : rsiPoint g l = some r) : 0 ≤ r ∧ r ≤ 100 := by
  unfold rsiPoint at h
  by_cases hl0 : l = 0
  · rw [if_pos hl0] at h
    by_cases hg0 : g = 0
    · rw [if_pos hg0] at h
      exact absurd h (by simp)
    · rw [if_neg hg0] at h
      have hr : r = 100 := by simpa using h.symm
      rw [hr]
      norm_num
  · rw [if_neg hl0] at h
    have hlpos : 0 < l := lt_of_le_of_ne hl (Ne.symm hl0)
    have hr : r = 100 - 100 / (1 + g / l) := by simpa using h.symm
    have hq : 0 ≤ g / l := div_nonneg hg (le_of_lt hlpos)
    have h2 : (0 : ℚ) < 1 + g / l := by linarith
    have h3 : 100 / (1 + g / l) ≤ 100 := div_le_self (by norm_num) (by linarith)
    have h4 : 0 < 100 / (1 + g / l) := div_pos (by norm_num) h2
    rw [hr]
    constructor <;> linarith

/-- Claim C8: wherever the 14-period Wilder RSI is defined it lies in
[0, 100]; when the smoothed loss is 0 and at least one gain has occurred so
far, the RSI is exactly 100; and the rs = gain/loss step is total — an RSI
entry (possibly the NaN sentinel) exists for every bar, so the division can
never fault. -/
theorem C8_rsi_bounds :
    (∀ (closes : List ℚ) (t : ℕ) (r : ℚ),
        (rsiSeries closes).get? t = some (some r) → 0 ≤ r ∧ r ≤ 100)
    ∧ (∀ (closes : List ℚ) (t : ℕ) (g : ℚ),
        (smoothedGain closes).get? t = some g →
        (smoothedLoss closes).get? t = some 0 →
        (∃ x ∈ (gainInputs closes).take (t + 1), 0 < x) →
        (rsiSeries closes).get? t = some (some 100))
    ∧ (∀ closes : List ℚ, (rsiSeries closes).length = closes.length) := by
  have ha0 : (0 : ℚ) < 1/14 := by norm_num
  have ha1 : (1 : ℚ)/14 < 1 := by norm_num
  refine ⟨?_, ?_, ?_⟩
  · intro closes t r h
    obtain ⟨g, l, hgep, hlep, hf⟩ :=
      (List.get?_zipWith_eq_some rsiPoint _ _ _ _).mp h
    have hgnn := (ewm_invariant (1/14) ha0 ha1 (gainInputs closes)
      (gainInputs_nonneg closes) t g hgep).1
    have hlnn := (ewm_invariant (1/14) ha0 ha1 (lossInputs closes)
      (lossInputs_nonneg closes) t l hlep).1
    exact rsiPoint_bounds g l r hgnn hlnn hf
  · intro closes t g hgep hlep hex
    have hgpos := (ewm_invariant (1/14) ha0 ha1 (gainInputs closes)
      (gainInputs_nonneg closes) t g hgep).2 hex
    have hrs : (rsiSeries closes).get? t = some (rsiPoint g 0) :=
      (List.get?_zipWith_eq_some rsiPoint _ _ _ _).mpr ⟨g, 0, hgep, hlep, rfl⟩
    rw [hrs]
    simp [rsiPoint, ne_of_gt hgpos]
  · intro closes
    simp [rsiSeries, smoothedGain, smoothedLoss, List.length_zipWith,
      ewm_length, gainInputs_length, lossInputs_length]

/-- Witness for C8 on the series [1, 2]: the second RSI entry is defined
(loss is 0, one gain) and the bound 0 <= 100 <= 100 follows from the theorem. -/
theorem C8_witness :
    (rsiSeries [1, 2]).get? 1 = some (some 100) ∧ (0 : ℚ) ≤ 100 ∧ (100 : ℚ) ≤ 100 := by
  have h : (rsiSeries [1, 2]).get? 1 = some (some 100) := by
    norm_num [rsiSeries, smoothedGain, smoothedLoss, gainInputs, lossInputs,
      ewm, ewmFrom, rsiPoint]
  have hb := C8_rsi_bounds.1 [1, 2] 1 100 h
  exact ⟨h, hb.1, hb.2⟩

/-- Claim C9: for fewer than 2 close prices the security is skipped (no value
written); for length >= 2 the written value is the true minimum m of the
day-over-day percentage returns, reported as exactly 0 when m >= 0; and each
daily return is (close[t+1] - close[t]) / close[t] * 100. -/
theorem C9_max_fall_rate :
    (∀ closes : List ℚ, closes.length < 2 → maxDailyFallRate closes = none)
    ∧ (∀ closes : List ℚ, 2 ≤ closes.length →
        ∃ m, (dailyReturns closes).min? = some m
          ∧ m ∈ dailyReturns closes
          ∧ (∀ r ∈ dailyReturns closes, m ≤ r)
          ∧ maxDailyFallRate closes = some (if 0 ≤ m then 0 else m))
    ∧ (∀ (closes : List ℚ) (t : ℕ) (prev cur : ℚ),
        closes.get? t = some prev → closes.get? (t + 1) = some cur →
        (dailyReturns closes).get? t = some ((cur - prev) / prev * 100)) := by
  refine ⟨?_, ?_, ?_⟩
  · intro closes h
    simp [maxDailyFallRate, h]
  · intro closes hlen
    obtain ⟨x, xs, hd⟩ : ∃ x xs, dailyReturns closes = x :: xs := by
      match closes with
      | [] => simp at hlen
      | [c] => simp at hlen
      | c :: d :: rest =>
        exact ⟨(d - c) / c * 100,
          List.zipWith (fun cur prev => (cur - prev) / prev * 100) rest (d :: rest),
          by simp [dailyReturns]⟩
    have hmin : (dailyReturns closes).min? = some (xs.foldl min x) := by
      rw [hd]
      rfl
    have hiff := (@List.min?_eq_some_iff ℚ (xs.foldl min x) _ _
      ⟨fun h h₂ => le_antisymm h h₂⟩ (fun a => le_refl a)
      (fun a b => min_choice a b) (fun a b c => le_min_iff)
      (dailyReturns closes)).mp hmin
    refine ⟨xs.foldl min x, hmin, hiff.1, hiff.2, ?_⟩
    rw [maxDailyFallRate, if_neg (by omega), hmin]
  · intro closes t prev cur hprev hcur
    cases closes with
    | nil => simp at hprev
    | cons c rest =>
      have h1 : rest.get? t = some cur := by simpa using hcur
      exact (List.get?_zipWith_eq_some _ _ _ _ _).mpr ⟨cur, prev, h1, hprev, rfl⟩

/-- Witness for C9: a single price is skipped, and on [100, 90] the sole
daily return is (90 - 100)/100 * 100. -/
theorem C9_witness :
    maxDailyFallRate [100] = none
    ∧ (dailyReturns [100, 90]).get? 0 = some ((90 - 100) / 100 * 100) :=
  ⟨C9_max_fall_rate.1 [100] (by norm_num),
   C9_max_fall_rate.2.2 [100, 90] 0 100 90 rfl rfl⟩
